

import Mathlib

/-!
Verification development for the bmon ingestion and cross-host correlation
pipeline (chaincodelabs/bmon).

The definitions below are a shallow embedding of the Python source:

* `src/bmon/mempool.py`   — `MempoolAcceptAggregator` (mark_seen,
  finalize_propagation) over a redis key-value store.  The redis state is
  modelled per key family: plain keys become `Option`-valued functions,
  sorted sets become score functions (member → `Option` score), counters
  become `Nat`-valued functions.  Timestamps (Python floats) are modelled
  as rationals.  Redis locks serialize the operations; the embedding is the
  sequential semantics obtained under that serialization, with lock
  acquire/release and key TTLs elided (no claim under consideration
  involves TTL expiry).
* `src/bmon/logparse.py`  — `ReorgListener`, `ConnectBlockListener`,
  `read_logfile_forever`.
* `src/bmon/bitcoind_tasks.py` — the per-line listener router `process_line`.
* `src/bmon/server_tasks.py`  — `process_completed_propagations`.

The file is organized as: all definitions first, then all theorems.
-/

/-- Timestamps: Python float UNIX timestamps, modelled as rationals. -/
abbrev Time := Rat

/-- `PolicyCohort` enum from `src/bmon/mempool.py` (members `segwit`, `taproot`). -/
inductive PolicyCohort where
  | segwit
  | taproot
deriving DecidableEq, Repr

/-- `PropagationStatus` enum from `src/bmon/mempool.py`. -/
inductive PropagationStatus where
  | completeAll
  | completeCohort
deriving DecidableEq, Repr

/-- Python exceptions that the aggregator code can raise. -/
inductive AggError where
  | assertionError
  | valueError
  | runtimeError
deriving DecidableEq, Repr

/-- `TxPropagation` dataclass from `src/bmon/mempool.py`.  `host_to_timestamp`
is a dict built by iterating `host_to_cohort` in order, so it is modelled as
an association list in that iteration order. -/
structure TxPropagation where
  txid : String
  host_to_timestamp : List (String × Time)
  cohorts_complete : List PolicyCohort
  all_complete : Bool
  time_window : Time
deriving DecidableEq, Repr

/-- `TxPropagation.earliest_saw`: `min(self.host_to_timestamp.values())`.
(Python raises on an empty dict; finalized records always have at least one
entry, and the `[]` case here is never reached for them.) -/
def TxPropagation.earliest_saw (tp : TxPropagation) : Time :=
  match tp.host_to_timestamp.map Prod.snd with
  | [] => 0
  | v :: vs => vs.foldl min v

/-- `TxPropagation.latest_saw`: `max(self.host_to_timestamp.values())`. -/
def TxPropagation.latest_saw (tp : TxPropagation) : Time :=
  match tp.host_to_timestamp.map Prod.snd with
  | [] => 0
  | v :: vs => vs.foldl max v

/-- `TxPropagation.spread = latest_saw - earliest_saw`. -/
def TxPropagation.spread (tp : TxPropagation) : Time :=
  tp.latest_saw - tp.earliest_saw

/-- The `MempoolAcceptAggregator`'s configuration: the `host_to_cohort` dict
passed to its constructor (an ordered association list, as a Python dict
preserves insertion order). -/
structure Aggregator where
  hostToCohort : List (String × PolicyCohort)
deriving DecidableEq, Repr

/-- `host_to_cohort[host]`, as an option (`None` when the host is unknown). -/
def Aggregator.cohortOf (agg : Aggregator) (host : String) : Option PolicyCohort :=
  agg.hostToCohort.lookup host

/-- Iteration order of `self.host_to_cohort` keys. -/
def Aggregator.hostNames (agg : Aggregator) : List String :=
  agg.hostToCohort.map Prod.fst

/-- `self.host_names`: `set(self.host_to_cohort.keys())`. -/
def Aggregator.hostNamesFinset (agg : Aggregator) : Finset String :=
  agg.hostNames.toFinset

/-- `self.hosts_for_cohort(cohort)`. -/
def Aggregator.hostsForCohort (agg : Aggregator) (c : PolicyCohort) : List String :=
  (agg.hostToCohort.filter (fun p => p.2 = c)).map Prod.fst

/-- `self.cohort(host)`: the host set of the host's own cohort (the host is
known whenever this is reached, since `mark_seen` raises beforehand
otherwise). -/
def Aggregator.cohortHosts (agg : Aggregator) (host : String) : Finset String :=
  match agg.cohortOf host with
  | some c => (agg.hostsForCohort c).toFinset
  | none => ∅

/-- `self.cohorts`: `set(self.host_to_cohort.values())`, iterated as a list. -/
def Aggregator.cohorts (agg : Aggregator) : List PolicyCohort :=
  (agg.hostToCohort.map Prod.snd).dedup

/-- The aggregator's redis state, split by key family:

* `hostSeen (txid, host)`  — key `mpa:<txid>:<host>` (first-seen timestamp);
* `txids m`                — sorted set `mpa:txids` (member → score);
* `totalSeen`              — counter `mpa:total_txids`;
* `totalSeenHost h`        — counter `mpa:total_txids:<h>`;
* `propEvents k`           — keys `mpa:prop_event:<txid>` (serialized record),
  indexed here by the full key string;
* `propEventSet m`         — sorted set `mpa:prop_event_set` (member → score);
  note the members written by `finalize_propagation` are full
  `mpa:prop_event:<txid>` key strings;
* `debugLog t`             — list key `mpa:log:<txid>`. -/
structure AggState where
  hostSeen : String × String → Option Time
  txids : String → Option Time
  totalSeen : Nat
  totalSeenHost : String → Nat
  propEvents : String → Option TxPropagation
  propEventSet : String → Option Time
  debugLog : String → List String

/-- Empty redis state. -/
def AggState.init : AggState where
  hostSeen := fun _ => none
  txids := fun _ => none
  totalSeen := 0
  totalSeenHost := fun _ => 0
  propEvents := fun _ => none
  propEventSet := fun _ => none
  debugLog := fun _ => []

/-- The key `EVENT_KEY = "mpa:prop_event:%s" % txid`. -/
def eventKey (txid : String) : String := "mpa:prop_event:" ++ txid

/-- The debug-log entry pushed onto `mpa:log:<txid>`. -/
def debugEntry (host : String) (seenAt now : Time) : String :=
  host ++ " | " ++ toString seenAt ++ " | " ++ toString now

/-- `self.redis.rpush(f"mpa:log:.", entry)`. -/
def AggState.pushLog (st : AggState) (txid entry : String) : AggState :=
  { st with debugLog := fun x =>
      if x = txid then st.debugLog txid ++ [entry] else st.debugLog x }

/-- `self.redis.set(f"mpa:.:.", seen_at.timestamp())`. -/
def AggState.setHostSeen (st : AggState) (txid host : String) (v : Time) : AggState :=
  { st with hostSeen := fun p => if p = (txid, host) then some v else st.hostSeen p }

/-- `zadd` on `mpa:txids` (insert, or update the member's score). -/
def AggState.zaddTxids (st : AggState) (txid : String) (score : Time) : AggState :=
  { st with txids := fun x => if x = txid then some score else st.txids x }

/-- `zrem` on `mpa:txids`. -/
def AggState.zremTxids (st : AggState) (txid : String) : AggState :=
  { st with txids := fun x => if x = txid then none else st.txids x }

/-- `incr` on `mpa:total_txids`. -/
def AggState.incrTotal (st : AggState) : AggState :=
  { st with totalSeen := st.totalSeen + 1 }

/-- `incr` on `mpa:total_txids:<host>`. -/
def AggState.incrHostTotal (st : AggState) (host : String) : AggState :=
  { st with totalSeenHost := fun x =>
      if x = host then st.totalSeenHost x + 1 else st.totalSeenHost x }

/-- `set` on `mpa:prop_event:<txid>`. -/
def AggState.setPropEvent (st : AggState) (k : String) (e : TxPropagation) : AggState :=
  { st with propEvents := fun x => if x = k then some e else st.propEvents x }

/-- `zadd` on `mpa:prop_event_set` (insert, or update the member's score). -/
def AggState.zaddPropEventSet (st : AggState) (m : String) (score : Time) : AggState :=
  { st with propEventSet := fun x => if x = m then some score else st.propEventSet x }

/-- `self.redis.delete(*(host_keys + [f"mpa:log:."]))`: drop the per-host
first-seen keys for every known host, and the debug log. -/
def AggState.deleteHostKeys (st : AggState) (agg : Aggregator) (txid : String) : AggState :=
  { st with
    hostSeen := fun p =>
      if p.1 = txid ∧ p.2 ∈ agg.hostNames then none else st.hostSeen p
    debugLog := fun x => if x = txid then [] else st.debugLog x }

/-- The batched `mget` over `mpa:<txid>:<h>` in `mark_seen`: the set of hosts
whose key exists. -/
def seenHosts (agg : Aggregator) (st : AggState) (txid : String) : Finset String :=
  (agg.hostNames.filter (fun h2 => (st.hostSeen (txid, h2)).isSome)).toFinset

/-- The batched `mget` in `finalize_propagation`: `host_to_timestamp`, built
in `host_to_cohort` iteration order (missing hosts are skipped). -/
def hostTimestamps (agg : Aggregator) (st : AggState) (txid : String) :
    List (String × Time) :=
  agg.hostNames.filterMap (fun h => (st.hostSeen (txid, h)).map (fun v => (h, v)))

/-- `MempoolAcceptAggregator.mark_seen(host, txid, seen_at)` from
`src/bmon/mempool.py`.  `now` is the wall clock (`timezone.now()`) during the
call.  Returns the post-call state together with the Python result: on an
uncaught exception the state holds all mutations made before the raise.
Python truthiness notes: the duplicate check `if self.redis.get(ts_key)` sees
the stringified float timestamp, which is always a non-empty (truthy) string,
so it is key existence; `zadd` without flags inserts the member or updates its
score, returning the number of *newly added* members. -/
def markSeen (agg : Aggregator) (st : AggState) (host txid : String)
    (seenAt now : Time) : AggState × Except AggError (Option PropagationStatus) :=
  -- assert len(self.host_to_cohort) > 0
  if agg.hostToCohort = [] then (st, .error .assertionError)
  -- if host not in self.host_to_cohort: raise ValueError
  else if (agg.cohortOf host).isNone then (st, .error .valueError)
  -- duplicate MempoolAccept event: log and return None, no mutation
  else if (st.hostSeen (txid, host)).isSome then (st, .ok none)
  else
    -- rpush onto mpa:log:<txid>, then set mpa:<txid>:<host> = seen_at
    let st1 := (st.pushLog txid (debugEntry host seenAt now)).setHostSeen txid host seenAt
    -- zadd mpa:txids, txid -> now; returns how many members were newly added
    let added : Nat := if (st1.txids txid).isSome then 0 else 1
    let st2 := st1.zaddTxids txid now
    if 0 < added ∧ (st2.propEventSet txid).isSome then
      -- raise RuntimeError("already processed this as fully propagated")
      (st2, .error .runtimeError)
    else
      let st3 := if 0 < added then st2.incrTotal else st2
      let st4 := st3.incrHostTotal host
      let hostsSeen := seenHosts agg st4 txid
      if hostsSeen = agg.hostNamesFinset then (st4, .ok (some .completeAll))
      else if agg.cohortHosts host \ hostsSeen = ∅ then
        (st4, .ok (some .completeCohort))
      else (st4, .ok none)

/-- `MempoolAcceptAggregator.finalize_propagation(txid, assert_complete)` from
`src/bmon/mempool.py`.  `now` is `timezone.now()` inside the lock.  Python
truthiness note: `if not first_saw` treats both a missing score and the score
`0.0` as missing.  The double-finalize check reads the score of the *bare*
`txid` in `mpa:prop_event_set`, while the indexing `zadd` below stores the
full `mpa:prop_event:<txid>` key as the member. -/
def finalizePropagation (agg : Aggregator) (st : AggState) (txid : String)
    (assertComplete : Bool) (now : Time) :
    AggState × Except AggError (Option TxPropagation) :=
  -- assert len(host_keys) > 0
  if agg.hostToCohort = [] then (st, .error .assertionError)
  -- if zscore("mpa:prop_event_set", txid) is not None: raise RuntimeError
  else if (st.propEventSet txid).isSome then (st, .error .runtimeError)
  else
    match st.txids txid with
    | none => (st, .ok none)       -- missing score: log and return None
    | some firstSaw =>
      if firstSaw = 0 then (st, .ok none)   -- `if not first_saw` (0.0 is falsy)
      else
        let h2t := hostTimestamps agg st txid
        if h2t = [] then
          -- no timestamp entries: drop the mpa:txids index entry, return None
          (st.zremTxids txid, .ok none)
        else
          let hostsThatSaw : Finset String := (h2t.map Prod.fst).toFinset
          let cohortsComplete : List PolicyCohort :=
            agg.cohorts.filter
              (fun c => (agg.hostsForCohort c).toFinset \ hostsThatSaw = ∅)
          let allComplete : Bool := hostsThatSaw = agg.hostNamesFinset
          if assertComplete && !allComplete then (st, .ok none)
          else
            let event : TxPropagation :=
              { txid := txid
                host_to_timestamp := h2t
                cohorts_complete := cohortsComplete
                all_complete := allComplete
                time_window := now - firstSaw }
            -- set mpa:prop_event:<txid> = serialized event
            let st5 := st.setPropEvent (eventKey txid) event
            -- zadd mpa:prop_event_set, EVENT_KEY -> now
            let added : Nat := if (st5.propEventSet (eventKey txid)).isSome then 0 else 1
            let st6 := st5.zaddPropEventSet (eventKey txid) now
            if added ≤ 0 then (st6, .ok none)   -- already in event index: return None
            else
              -- assert zrem("mpa:txids", txid) == 1
              let removed : Nat := if (st6.txids txid).isSome then 1 else 0
              let st7 := st6.zremTxids txid
              if removed ≠ 1 then (st7, .error .assertionError)
              else (st7.deleteHostKeys agg txid, .ok (some event))

/-- One call against the aggregator: either `mark_seen` or
`finalize_propagation` (the latter as invoked directly or from
`process_all_aged`).  Each op carries the wall-clock time of the call. -/
inductive AggOp where
  | mark (host txid : String) (seenAt now : Time)
  | fin (txid : String) (assertComplete : Bool) (now : Time)

/-- The Python-level outcome of one aggregator call. -/
inductive AggOpResult where
  | marked (r : Except AggError (Option PropagationStatus))
  | finalized (r : Except AggError (Option TxPropagation))

/-- Execute one aggregator call. -/
def stepOp (agg : Aggregator) (st : AggState) : AggOp → AggState × AggOpResult
  | .mark h t s n =>
      let p := markSeen agg st h t s n
      (p.1, .marked p.2)
  | .fin t ac n =>
      let p := finalizePropagation agg st t ac n
      (p.1, .finalized p.2)

/-- Execute a sequence of aggregator calls; exceptions are caught by the
callers (`process_all_aged`, the task queue), so the sequence continues from
the state left behind by the raising call. -/
def runOps (agg : Aggregator) (st : AggState) : List AggOp → AggState × List AggOpResult
  | [] => (st, [])
  | op :: rest =>
      let p := stepOp agg st op
      let q := runOps agg p.1 rest
      (q.1, p.2 :: q.2)

/-- Does this call outcome finalize txid `t` (return a propagation record)? -/
def isFinalizationOf (t : String) : AggOpResult → Bool
  | .finalized (.ok (some tp)) => tp.txid == t
  | _ => false

/-- How many calls in the outcome list finalized txid `t`. -/
def finalizedCount (t : String) (rs : List AggOpResult) : Nat :=
  rs.countP (isFinalizationOf t)

def aggAB : Aggregator := ⟨[("a", .segwit), ("b", .taproot)]⟩

def stFinalized : AggState :=
  { AggState.init with propEventSet := fun m => if m = "t1" then some 9 else none }

def stSeenA : AggState :=
  { AggState.init with hostSeen := fun p => if p = ("t1", "a") then some 5 else none }

def mempoolAcceptAggregatorMethods : List String :=
  ["cohort", "cohorts", "hosts_for_cohort", "host_names",
   "get_total_txids_processed", "get_total_txids_processed_per_host",
   "get_txid_lock", "mark_seen", "get_txid_debug_log", "process_all_aged",
   "finalize_propagation", "get_propagation_event_keys", "get_propagation_events"]

inductive PyAttrError where
  | attributeError
deriving DecidableEq, Repr

def serverProcessCompletedPropagations (agg : Aggregator) (st : AggState)
    (txid : String) (now : Time) :
    AggState × Except PyAttrError (Option TxPropagation) :=
  if "process_completed_propagations" ∈ mempoolAcceptAggregatorMethods then
    (st, .ok ((finalizePropagation agg st txid true now).2.toOption.join))
  else (st, .error .attributeError)

def processMempoolAccept (agg : Aggregator) (st : AggState) (host txid : String)
    (seenAt now : Time) :
    AggState × Except AggError (Option PropagationStatus)
      × Option (Except PyAttrError (Option TxPropagation)) :=
  let p := markSeen agg st host txid seenAt now
  match p.2 with
  | .ok (some .completeAll) =>
      let q := serverProcessCompletedPropagations agg p.1 txid now
      (q.1, p.2, some q.2)
  | r => (p.1, r, none)

structure MarkCall where
  host : String
  txid : String
  seenAt : Time
deriving DecidableEq, Repr

def MarkCall.key (m : MarkCall) : String × String := (m.txid, m.host)

def runMarks (agg : Aggregator) (now : Time) (st : AggState) : List MarkCall → AggState
  | [] => st
  | m :: rest => runMarks agg now ((markSeen agg st m.host m.txid m.seenAt now).1) rest

def findMark (ms : List MarkCall) (k : String × String) : Option Time :=
  (ms.find? (fun m => m.key == k)).map MarkCall.seenAt

def msC4a : List MarkCall := [⟨"a", "t1", 1⟩, ⟨"b", "t1", 2⟩]

def msC4b : List MarkCall := [⟨"b", "t1", 2⟩, ⟨"a", "t1", 1⟩]

/-- A bitcoind debug-log line, as seen by the block-event listeners of
`src/bmon/logparse.py`.  The containment tests (` BlockConnected: `,
` BlockDisconnected: `, ` Enqueuing `) become Boolean fields and the regex
groups (`height=`, `hash=`) and `get_time` become the payload fields. -/
structure BtcLine where
  hasBlockConnected : Bool
  hasBlockDisconnected : Bool
  hasEnqueuing : Bool
  height : Nat
  blockhash : String
  timestamp : Time
deriving DecidableEq, Repr

/-- Payload shared by `models.BlockConnectedEvent` / `BlockDisconnectedEvent`. -/
structure BlockEvent where
  timestamp : Time
  height : Nat
  blockhash : String
deriving DecidableEq, Repr

/-- `BlockDisconnectedListener.process_line`: matches lines containing
` BlockDisconnected: ` but not ` Enqueuing `. -/
def blockDisconnectedListener (l : BtcLine) : Option BlockEvent :=
  if l.hasBlockDisconnected && !l.hasEnqueuing then
    some ⟨l.timestamp, l.height, l.blockhash⟩
  else none

/-- `BlockConnectedListener.process_line`: matches lines containing
` BlockConnected: ` but not ` Enqueuing `. -/
def blockConnectedListener (l : BtcLine) : Option BlockEvent :=
  if l.hasBlockConnected && !l.hasEnqueuing then
    some ⟨l.timestamp, l.height, l.blockhash⟩
  else none

/-- The `ReorgListener`'s inner loop over `(self.disconnect_listener,
self.connect_listener)`: the first truthy result wins. -/
inductive BlockGot where
  | disconnected (e : BlockEvent)
  | connected (e : BlockEvent)
deriving DecidableEq, Repr

def reorgGot (l : BtcLine) : Option BlockGot :=
  match blockDisconnectedListener l with
  | some e => some (.disconnected e)
  | none =>
    match blockConnectedListener l with
    | some e => some (.connected e)
    | none => none

/-- The `ReorgListener`'s mutable state (`self.disconnects`,
`self.replacements`). -/
structure ReorgState where
  disconnects : List BlockEvent
  replacements : List BlockEvent
deriving DecidableEq, Repr

def ReorgState.initial : ReorgState := ⟨[], []⟩

/-- `models.ReorgEvent` payload. -/
structure ReorgEvent where
  finished_timestamp : Time
  min_height : Nat
  max_height : Nat
  old_blockhashes : List String
  new_blockhashes : List String
deriving DecidableEq, Repr

/-- The tail of `ReorgListener.process_line` that builds and emits the
`ReorgEvent` ("If we're here, we have completed the reorg").  Indexing
`self.replacements[-1]` on an empty list raises IndexError, modelled as
`.error ()` with the listener state left as it was.  (`self.disconnects[0]`
cannot fail here: the connected branch is only reached with a non-empty
disconnect list.) -/
def reorgEmit (s1 : ReorgState) (maxH : Nat) :
    ReorgState × Except Unit (Option ReorgEvent) :=
  match s1.replacements.getLast? with
  | none => (s1, .error ())
  | some lastR =>
    match s1.disconnects.head? with
    | none => (s1, .error ())
    | some headD =>
      (ReorgState.initial, .ok (some
        { finished_timestamp := lastR.timestamp
          min_height := headD.height
          max_height := maxH
          old_blockhashes := s1.disconnects.map BlockEvent.blockhash
          new_blockhashes := s1.replacements.map BlockEvent.blockhash }))

/-- `ReorgListener.process_line` from `src/bmon/logparse.py`.  Disconnects
are inserted at the head (`self.disconnects.insert(0, got)`); a connect with
no outstanding disconnects is ignored; a connect at height `<= max` is
appended to the replacements, and at height `== max` (or above) the reorg is
emitted and the state reset. -/
def reorgProcessLine (s : ReorgState) (l : BtcLine) :
    ReorgState × Except Unit (Option ReorgEvent) :=
  match reorgGot l with
  | none => (s, .ok none)
  | some (.disconnected e) => ({ s with disconnects := e :: s.disconnects }, .ok none)
  | some (.connected e) =>
    match s.disconnects.getLast? with
    | none => (s, .ok none)
    | some lastD =>
      if e.height ≤ lastD.height then
        let s1 : ReorgState := { s with replacements := s.replacements ++ [e] }
        if e.height < lastD.height then (s1, .ok none)
        else reorgEmit s1 lastD.height
      else reorgEmit s lastD.height

/-- Feed a list of lines through the `ReorgListener`, collecting each call's
outcome. -/
def runReorg (s : ReorgState) :
    List BtcLine → ReorgState × List (Except Unit (Option ReorgEvent))
  | [] => (s, [])
  | l :: rest =>
      let p := reorgProcessLine s l
      let q := runReorg p.1 rest
      (q.1, p.2 :: q.2)

/-- A `BlockDisconnected` log line. -/
def mkDisconnectLine (height : Nat) (hash : String) (ts : Time) : BtcLine :=
  { hasBlockConnected := false
    hasBlockDisconnected := true
    hasEnqueuing := false
    height := height
    blockhash := hash
    timestamp := ts }

/-- A `BlockConnected` log line. -/
def mkConnectLine (height : Nat) (hash : String) (ts : Time) : BtcLine :=
  { hasBlockConnected := true
    hasBlockDisconnected := false
    hasEnqueuing := false
    height := height
    blockhash := hash
    timestamp := ts }

/-- The C5 scenario input: `k` disconnect lines at heights `h+k-1` down to
`h` (the hash at height `h+i` is `odh i`), followed by `k` connect lines at
heights `h` up to `h+k-1` (hash `ndh i`). -/
def reorgScenarioLines (h k : Nat) (odh ndh : Nat → String)
    (dts cts : Nat → Time) : List BtcLine :=
  ((List.range k).reverse.map (fun i => mkDisconnectLine (h + i) (odh i) (dts i)))
    ++ ((List.range k).map (fun i => mkConnectLine (h + i) (ndh i) (cts i)))

/-- The named groups matched on an `UpdateTip:` line by
`ConnectBlockListener._update_tip_sub_patts`.  Groups that the code reads
unconditionally (`blockhash`, `log2_work`, `total_tx_count`, `date`,
`cachesize_txo`) are modelled as present; `height` is optional (its absence
makes the listener skip the line), as are `version`, `cachesize_mib` and
`warning`. -/
structure UpdateTipFields where
  height : Option Nat
  blockhash : String
  log2_work : Time
  total_tx_count : Nat
  version : Option String
  date : Time
  cachesize_mib : Option Time
  cachesize_txo : Time
  warning : Option String
deriving DecidableEq, Repr

/-- A `- <label>: <float>ms` timing line, one constructor per pattern in
`ConnectBlockListener._detail_patts`; `- Connect N transactions` and
`- Verify N txins` also carry their counts. -/
inductive DetailLine where
  | loadBlockFromDisk (v : Time)
  | sanityChecks (v : Time)
  | forkChecks (v : Time)
  | connectTxs (txCount : Nat) (v : Time)
  | verifyTxins (txinCount : Nat) (v : Time)
  | indexWriting (v : Time)
  | connectTotal (v : Time)
  | flushCoins (v : Time)
  | writingChainstate (v : Time)
  | connectPostprocess (v : Time)
  | connectBlock (v : Time)
deriving DecidableEq, Repr

/-- A log line as seen by the `ConnectBlockListener`: an `UpdateTip:` line, a
timing detail line, or anything else. -/
inductive CbLine where
  | updateTip (ts : Time) (f : UpdateTipFields)
  | detail (ts : Time) (d : DetailLine)
  | other
deriving DecidableEq, Repr

/-- `models.ConnectBlockEvent` payload. -/
structure ConnectBlockEvent where
  timestamp : Time
  blockhash : String
  height : Nat
  log2_work : Time
  total_tx_count : Nat
  version : Option String
  date : Time
  cachesize_mib : Option Time
  cachesize_txo : Time
  warning : Option String
deriving DecidableEq, Repr

/-- `models.ConnectBlockDetails`, as the listener's mutable accumulator
(`self.next_details`): every field starts unset. -/
structure ConnectBlockDetails where
  timestamp : Option Time := none
  blockhash : Option String := none
  height : Option Nat := none
  load_block_from_disk_time_ms : Option Time := none
  sanity_checks_time_ms : Option Time := none
  fork_checks_time_ms : Option Time := none
  tx_count : Option Nat := none
  txin_count : Option Nat := none
  connect_txs_time_ms : Option Time := none
  verify_time_ms : Option Time := none
  index_writing_time_ms : Option Time := none
  connect_total_time_ms : Option Time := none
  flush_coins_time_ms : Option Time := none
  flush_chainstate_time_ms : Option Time := none
  connect_postprocess_time_ms : Option Time := none
  connectblock_total_time_ms : Option Time := none
deriving DecidableEq, Repr

/-- A fresh `ConnectBlockDetails()`. -/
def ConnectBlockDetails.empty : ConnectBlockDetails := {}

/-- `dict_onto_event(matchgroups, self.next_details, ...)`: set the matched
groups onto the accumulator. -/
def applyDetail (d : ConnectBlockDetails) : DetailLine → ConnectBlockDetails
  | .loadBlockFromDisk v => { d with load_block_from_disk_time_ms := some v }
  | .sanityChecks v => { d with sanity_checks_time_ms := some v }
  | .forkChecks v => { d with fork_checks_time_ms := some v }
  | .connectTxs c v => { d with tx_count := some c, connect_txs_time_ms := some v }
  | .verifyTxins c v => { d with txin_count := some c, verify_time_ms := some v }
  | .indexWriting v => { d with index_writing_time_ms := some v }
  | .connectTotal v => { d with connect_total_time_ms := some v }
  | .flushCoins v => { d with flush_coins_time_ms := some v }
  | .writingChainstate v => { d with flush_chainstate_time_ms := some v }
  | .connectPostprocess v => { d with connect_postprocess_time_ms := some v }
  | .connectBlock v => { d with connectblock_total_time_ms := some v }

/-- The `ConnectBlockListener`'s mutable state. -/
structure ConnectBlockState where
  next_details : ConnectBlockDetails
  current_height : Option Nat
  current_blockhash : Option String
deriving DecidableEq, Repr

def ConnectBlockState.init : ConnectBlockState :=
  { next_details := ConnectBlockDetails.empty
    current_height := none
    current_blockhash := none }

/-- The two event kinds the listener can return. -/
inductive CbOut where
  | connectBlock (e : ConnectBlockEvent)
  | details (d : ConnectBlockDetails)
deriving DecidableEq, Repr

/-- `ConnectBlockListener.process_line` from `src/bmon/logparse.py`.  On an
`UpdateTip:` line with a height, the listener records the current
blockhash/height and returns a `ConnectBlockEvent` — without touching
`self.next_details`.  On a timing line it accumulates, and flushes the
accumulator (resetting it) when `connectblock_total_time_ms` is set; the
`assert self.current_blockhash` failure is modelled as `.error ()`. -/
def connectBlockProcessLine (s : ConnectBlockState) :
    CbLine → ConnectBlockState × Except Unit (Option CbOut)
  | .updateTip ts f =>
    match f.height with
    | none => (s, .ok none)
    | some hgt =>
      ({ s with current_height := some hgt, current_blockhash := some f.blockhash },
       .ok (some (.connectBlock
         { timestamp := ts
           blockhash := f.blockhash
           height := hgt
           log2_work := f.log2_work
           total_tx_count := f.total_tx_count
           version := f.version
           date := f.date
           cachesize_mib := f.cachesize_mib
           cachesize_txo := f.cachesize_txo
           warning := f.warning })))
  | .other => (s, .ok none)
  | .detail ts d =>
    let nd := applyDetail s.next_details d
    if nd.connectblock_total_time_ms.isSome then
      match s.current_blockhash, s.current_height with
      | some bh, some hh =>
        ({ next_details := ConnectBlockDetails.empty
           current_height := none
           current_blockhash := none },
         .ok (some (.details
           { nd with blockhash := some bh, height := some hh, timestamp := some ts })))
      | _, _ => ({ s with next_details := nd }, .error ())
    else ({ s with next_details := nd }, .ok none)

/-- Feed a list of lines through the `ConnectBlockListener`. -/
def runCb (s : ConnectBlockState) :
    List CbLine → ConnectBlockState × List (Except Unit (Option CbOut))
  | [] => (s, [])
  | l :: rest =>
      let p := connectBlockProcessLine s l
      let q := runCb p.1 rest
      (q.1, p.2 :: q.2)

/-- A fully populated `UpdateTip:` line's groups. -/
def utFields (hgt : Nat) (hash : String) : UpdateTipFields :=
  { height := some hgt
    blockhash := hash
    log2_work := 80
    total_tx_count := 100
    version := none
    date := 0
    cachesize_mib := none
    cachesize_txo := 10
    warning := none }

/-- The C7 scenario: UpdateTip for block `aa`, a partial timing accumulation,
a new UpdateTip for block `bb`, then the terminal `- Connect block:` line. -/
def c7Lines : List CbLine :=
  [.updateTip 1 (utFields 100 "aa"), .detail 2 (.sanityChecks 1),
   .updateTip 3 (utFields 101 "bb"), .detail 4 (.connectBlock 2)]

/-- The `ConnectBlockDetails` flushed by the last line of the C7 scenario. -/
def c7Flushed : Option ConnectBlockDetails :=
  match (runCb ConnectBlockState.init c7Lines).2.getLast? with
  | some (.ok (some (.details dd))) => some dd
  | _ => none

/-- An event model instance as handled by `process_line` in
`src/bmon/bitcoind_tasks.py`: `tag` is the model class name,
`isMempoolAccept` is `isinstance(got, models.MempoolAccept)`, `hasPeerId` is
`hasattr(got, "peer_id")`, `isHighVolume` is `got.is_high_volume`, and
`peerNum` is `got.peer_num` (meaningful when `hasPeerId`). -/
structure RouterEvent where
  tag : String
  isMempoolAccept : Bool
  hasPeerId : Bool
  isHighVolume : Bool
  peerNum : Nat
deriving DecidableEq, Repr

/-- What one listener's `process_line(line)` can produce: `None`, a raised
exception (caught by the router), the Pong listener's integer channel, or an
event model. -/
inductive ListenerOut where
  | nothing
  | raised
  | intVal (n : Nat)
  | event (e : RouterEvent)
deriving DecidableEq, Repr

/-- One listener of the chain, at its current internal state: `isPong` is
`isinstance(listener, logparse.PongListener)` and `out` is what
`listener.process_line` returns on each line from that state. -/
structure RouterListener where
  isPong : Bool
  out : String → ListenerOut

/-- The router's environment: the line fingerprint function
(`logparse.linehash`), the `peer_id_map` cache, the result of the synchronous
peer re-sync (`sync_peer_data_blocking(n).get(n)`), and the outcome of Django
model validation (`got.full_clean()`). -/
structure RouterEnv where
  hashFn : String → String
  peerIdMap : Nat → Option Nat
  resync : Nat → Option Nat
  valid : RouterEvent → Bool

/-- What one `process_line` call did: events sent to the hub via `send_event`
(with the resolved `peer_id` when one was filled in), mempool events
dispatched to `mempool_activity`/`process_mempool_accept`, peer re-syncs
triggered by pong, the number of `ProcessLineError` rows created, the stored
log cursor, and whether an exception escaped the loop. -/
structure RouterResult where
  sent : List (RouterEvent × Option Nat)
  mempool : List RouterEvent
  pongSyncs : List Nat
  errors : Nat
  cursor : Option String
  aborted : Bool
deriving Repr

/-- The body of the `for listener in ls:` loop of `process_line`
(`src/bmon/bitcoind_tasks.py`), from one listener onwards.  Notable paths:
a raising listener is recorded and the chain continues; a `MempoolAccept`
is diverted to the mempool queue, which marks the cursor at enqueue time; an
event carrying an unresolvable peer reference makes `process_line` itself
`return None`, so the remaining listeners never see the line; an event that
fails `full_clean()` is dropped with `continue`, without marking the cursor;
a sent event marks the cursor with the line's fingerprint. -/
def routerGo (env : RouterEnv) (line lh : String) :
    List RouterListener → RouterResult → RouterResult
  | [], acc => acc
  | l :: rest, acc =>
    match l.out line with
    | .raised => routerGo env line lh rest { acc with errors := acc.errors + 1 }
    | .nothing => routerGo env line lh rest acc
    | .intVal n =>
        if l.isPong then
          routerGo env line lh rest { acc with pongSyncs := acc.pongSyncs ++ [n] }
        else { acc with aborted := true }   -- `got.host = host` on an int raises
    | .event e =>
        if e.isMempoolAccept then
          routerGo env line lh rest
            { acc with mempool := acc.mempool ++ [e], cursor := some lh }
        else if l.isPong then
          { acc with aborted := true }      -- `assert isinstance(got, int)` fails
        else
          let resolved : Option (Option Nat) :=
            if e.hasPeerId ∧ ¬ e.isHighVolume = true then
              match env.peerIdMap e.peerNum with
              | some pid => some (some pid)
              | none =>
                match env.resync e.peerNum with
                | some pid => some (some pid)
                | none => none
            else some none
          match resolved with
          | none => acc                     -- `return None`: line discarded
          | some pid =>
            if env.valid e then
              routerGo env line lh rest
                { acc with sent := acc.sent ++ [(e, pid)], cursor := some lh }
            else routerGo env line lh rest acc   -- validation failed: `continue`

/-- `process_line(line, host)`: run the whole chain on one line, starting
from the stored cursor `cursor0`. -/
def routerRun (env : RouterEnv) (line : String) (cursor0 : Option String)
    (ls : List RouterListener) : RouterResult :=
  routerGo env line (env.hashFn line) ls
    { sent := [], mempool := [], pongSyncs := [], errors := 0,
      cursor := cursor0, aborted := false }

/-- The events each listener of the chain would produce on the line in
isolation, in chain order. -/
def isolationEvents (ls : List RouterListener) (line : String) : List RouterEvent :=
  ls.filterMap (fun l =>
    match l.out line with
    | .event e => some e
    | _ => none)

/-- No listener misuses the integer channel: only the Pong listener returns
ints, and the Pong listener never returns an event model. -/
def chainWellformed (ls : List RouterListener) (line : String) : Prop :=
  ∀ l ∈ ls, match l.out line with
    | .intVal _ => l.isPong = true
    | .event _ => l.isPong = false
    | _ => True

/-- Every event the chain extracts from the line that carries a peer
reference can be resolved through the cache or the synchronous re-sync. -/
def peersResolvable (env : RouterEnv) (ls : List RouterListener) (line : String) : Prop :=
  ∀ l ∈ ls, match l.out line with
    | .event e => (e.hasPeerId ∧ ¬ e.isHighVolume = true) →
        ((env.peerIdMap e.peerNum).isSome ∨ (env.resync e.peerNum).isSome)
    | _ => True

/-- An event with an unresolvable peer reference (think `MempoolReject` or
`BlockDownloadTimeout` whose `peer_num` is missing from the cache and whose
re-sync fails). -/
def e1C6 : RouterEvent :=
  { tag := "BlockDownloadTimeout", isMempoolAccept := false, hasPeerId := true,
    isHighVolume := false, peerNum := 5 }

/-- A plain event with no peer reference (think `BlockConnectedEvent`). -/
def e2C6 : RouterEvent :=
  { tag := "BlockConnectedEvent", isMempoolAccept := false, hasPeerId := false,
    isHighVolume := false, peerNum := 0 }

/-- A chain where the first listener extracts `e1C6` and the second `e2C6`. -/
def lsC6 : List RouterListener :=
  [⟨false, fun _ => .event e1C6⟩, ⟨false, fun _ => .event e2C6⟩]

/-- An environment where no peer number resolves (cache miss and failed
re-sync) and every model validates. -/
def envC6 : RouterEnv :=
  { hashFn := fun _ => "H", peerIdMap := fun _ => none,
    resync := fun _ => none, valid := fun _ => true }

/-- An environment where peer 5 resolves through the cache. -/
def envC6w : RouterEnv :=
  { hashFn := fun _ => "H", peerIdMap := fun _ => some 7,
    resync := fun _ => none, valid := fun _ => true }

/-- The environment for the C9 counterexample: every model fails validation,
peers resolve, and the line fingerprint is `"HH"`. -/
def envC9 : RouterEnv :=
  { hashFn := fun _ => "HH", peerIdMap := fun _ => some 1,
    resync := fun _ => none, valid := fun _ => false }

/-- A chain with one listener extracting the plain event `e2C6`. -/
def lsC9 : List RouterListener := [⟨false, fun _ => .event e2C6⟩]

/-- The cursor-seek loop of `read_logfile_forever` (`src/bmon/logparse.py`):
`readline` until a line whose fingerprint (`linehash` of the line with its
trailing newline stripped) equals the cursor; remember the position just
after that line.  The file's current contents are modelled as the list of
its complete lines (each without its terminating newline), and the
remembered byte position as the index of the line following the match.
Returns `none` when no line matches before end of contents. -/
def scanForCursor (hashFn : String → String) (cursor : String) :
    List String → Option Nat
  | [] => none
  | l :: rest =>
      if hashFn l = cursor then some 1
      else (scanForCursor hashFn cursor rest).map (· + 1)

/-- The start-up phase of `read_logfile_forever(filename, seek_to_cursor)`:
compute where the yielded sequence starts and whether the
"cursor not found" warning is logged.  Note `if seek_to_cursor:` — an empty
cursor string is falsy in Python, so it skips the scan entirely, exactly
like `None`, and logs no warning. -/
def followSetup (hashFn : String → String) (lines : List String)
    (cursor : Option String) : Nat × Bool :=
  match cursor with
  | none => (0, false)
  | some c =>
    if c = "" then (0, false)
    else
      match scanForCursor hashFn c lines with
      | some i => (i, false)
      | none => (0, true)

/-- The lines yielded by the chunked reader of `read_logfile_forever` from
the current file contents (before it blocks waiting for growth), paired
with the warning flag: the reader seeks to the remembered position and
yields every complete line from there on. -/
def followYield (hashFn : String → String) (lines : List String)
    (cursor : Option String) : List String × Bool :=
  ((lines.drop (followSetup hashFn lines cursor).1),
   (followSetup hashFn lines cursor).2)

@[simp]
theorem AggState.pushLog_propEventSet (st : AggState) (t e : String) :
    (st.pushLog t e).propEventSet = st.propEventSet := rfl

@[simp]
theorem AggState.setHostSeen_propEventSet (st : AggState) (t h : String) (v : Time) :
    (st.setHostSeen t h v).propEventSet = st.propEventSet := rfl

@[simp]
theorem AggState.zaddTxids_propEventSet (st : AggState) (t : String) (v : Time) :
    (st.zaddTxids t v).propEventSet = st.propEventSet := rfl

@[simp]
theorem AggState.zremTxids_propEventSet (st : AggState) (t : String) :
    (st.zremTxids t).propEventSet = st.propEventSet := rfl

@[simp]
theorem AggState.incrTotal_propEventSet (st : AggState) :
    st.incrTotal.propEventSet = st.propEventSet := rfl

@[simp]
theorem AggState.incrHostTotal_propEventSet (st : AggState) (h : String) :
    (st.incrHostTotal h).propEventSet = st.propEventSet := rfl

@[simp]
theorem AggState.setPropEvent_propEventSet (st : AggState) (k : String) (e : TxPropagation) :
    (st.setPropEvent k e).propEventSet = st.propEventSet := rfl

@[simp]
theorem AggState.zaddPropEventSet_propEventSet (st : AggState) (m : String) (v : Time) :
    (st.zaddPropEventSet m v).propEventSet =
      fun x => if x = m then some v else st.propEventSet x := rfl

@[simp]
theorem AggState.deleteHostKeys_propEventSet (st : AggState) (agg : Aggregator) (t : String) :
    (st.deleteHostKeys agg t).propEventSet = st.propEventSet := rfl

@[simp]
theorem AggState.pushLog_hostSeen (st : AggState) (t e : String) :
    (st.pushLog t e).hostSeen = st.hostSeen := rfl

@[simp]
theorem AggState.setHostSeen_hostSeen (st : AggState) (t h : String) (v : Time) :
    (st.setHostSeen t h v).hostSeen =
      fun p => if p = (t, h) then some v else st.hostSeen p := rfl

@[simp]
theorem AggState.zaddTxids_hostSeen (st : AggState) (t : String) (v : Time) :
    (st.zaddTxids t v).hostSeen = st.hostSeen := rfl

@[simp]
theorem AggState.zremTxids_hostSeen (st : AggState) (t : String) :
    (st.zremTxids t).hostSeen = st.hostSeen := rfl

@[simp]
theorem AggState.incrTotal_hostSeen (st : AggState) :
    st.incrTotal.hostSeen = st.hostSeen := rfl

@[simp]
theorem AggState.incrHostTotal_hostSeen (st : AggState) (h : String) :
    (st.incrHostTotal h).hostSeen = st.hostSeen := rfl

@[simp]
theorem AggState.setPropEvent_hostSeen (st : AggState) (k : String) (e : TxPropagation) :
    (st.setPropEvent k e).hostSeen = st.hostSeen := rfl

@[simp]
theorem AggState.zaddPropEventSet_hostSeen (st : AggState) (m : String) (v : Time) :
    (st.zaddPropEventSet m v).hostSeen = st.hostSeen := rfl

@[simp]
theorem AggState.pushLog_txids (st : AggState) (t e : String) :
    (st.pushLog t e).txids = st.txids := rfl

@[simp]
theorem AggState.setHostSeen_txids (st : AggState) (t h : String) (v : Time) :
    (st.setHostSeen t h v).txids = st.txids := rfl

@[simp]
theorem AggState.zaddTxids_txids (st : AggState) (t : String) (v : Time) :
    (st.zaddTxids t v).txids = fun x => if x = t then some v else st.txids x := rfl

@[simp]
theorem AggState.zremTxids_txids (st : AggState) (t : String) :
    (st.zremTxids t).txids = fun x => if x = t then none else st.txids x := rfl

@[simp]
theorem AggState.incrTotal_txids (st : AggState) :
    st.incrTotal.txids = st.txids := rfl

@[simp]
theorem AggState.incrHostTotal_txids (st : AggState) (h : String) :
    (st.incrHostTotal h).txids = st.txids := rfl

@[simp]
theorem AggState.setPropEvent_txids (st : AggState) (k : String) (e : TxPropagation) :
    (st.setPropEvent k e).txids = st.txids := rfl

@[simp]
theorem AggState.zaddPropEventSet_txids (st : AggState) (m : String) (v : Time) :
    (st.zaddPropEventSet m v).txids = st.txids := rfl

@[simp]
theorem AggState.deleteHostKeys_txids (st : AggState) (agg : Aggregator) (t : String) :
    (st.deleteHostKeys agg t).txids = st.txids := rfl

theorem markSeen_propEventSet (agg : Aggregator) (st : AggState) (h t : String)
    (s n : Time) : ((markSeen agg st h t s n).1).propEventSet = st.propEventSet := by
  simp only [markSeen]
  (repeat' split) <;> simp

theorem finalize_propEventSet_mono (agg : Aggregator) (st : AggState) (t : String)
    (ac : Bool) (n : Time) (k : String) (hk : (st.propEventSet k).isSome) :
    ((((finalizePropagation agg st t ac n).1)).propEventSet k).isSome := by
  simp only [finalizePropagation]
  (repeat' split) <;> simp_all <;> split <;> simp_all

theorem finalize_success_absent (agg : Aggregator) (st : AggState) (t : String)
    (ac : Bool) (n : Time) (tp : TxPropagation)
    (hs : (finalizePropagation agg st t ac n).2 = .ok (some tp)) :
    tp.txid = t ∧ st.propEventSet (eventKey t) = none ∧
      ((finalizePropagation agg st t ac n).1).propEventSet (eventKey t) = some n := by
  simp only [finalizePropagation] at hs ⊢
  (repeat' split at hs) <;> simp_all
  · subst hs
    refine ⟨rfl, ?_⟩
    split <;> simp_all

theorem stepOp_propEventSet_mono (agg : Aggregator) (st : AggState) (op : AggOp)
    (k : String) (hk : (st.propEventSet k).isSome) :
    (((stepOp agg st op).1).propEventSet k).isSome := by
  cases op with
  | mark h t s n =>
      simpa only [stepOp, markSeen_propEventSet] using hk
  | fin t ac n =>
      exact finalize_propEventSet_mono agg st t ac n k hk

theorem stepOp_no_finalization_of_present (agg : Aggregator) (st : AggState)
    (op : AggOp) (t : String) (hst : (st.propEventSet (eventKey t)).isSome) :
    isFinalizationOf t (stepOp agg st op).2 = false := by
  cases op with
  | mark h t2 s n => rfl
  | fin t2 ac n =>
      simp only [stepOp]
      cases hr : (finalizePropagation agg st t2 ac n).2 with
      | error e => rfl
      | ok o =>
          cases o with
          | none => rfl
          | some tp =>
              simp only [isFinalizationOf, beq_eq_false_iff_ne, ne_eq]
              intro hteq
              obtain ⟨htx, habs, _⟩ := finalize_success_absent agg st t2 ac n tp hr
              rw [htx] at hteq
              subst hteq
              rw [habs] at hst
              simp at hst

theorem runOps_count_zero (agg : Aggregator) (t : String) :
    ∀ (ops : List AggOp) (st : AggState), (st.propEventSet (eventKey t)).isSome →
      finalizedCount t (runOps agg st ops).2 = 0 := by
  intro ops
  induction ops with
  | nil => intro st _; rfl
  | cons op rest ih =>
      intro st hst
      simp only [runOps, finalizedCount, List.countP_cons]
      rw [stepOp_no_finalization_of_present agg st op t hst]
      simp only [Bool.false_eq_true, if_false, Nat.add_zero]
      exact ih _ (stepOp_propEventSet_mono agg st op (eventKey t) hst)

theorem runOps_finalized_at_most_once (agg : Aggregator) (t : String) :
    ∀ (ops : List AggOp) (st : AggState), finalizedCount t (runOps agg st ops).2 ≤ 1 := by
  intro ops
  induction ops with
  | nil => intro st; exact Nat.zero_le 1
  | cons op rest ih =>
      intro st
      simp only [runOps, finalizedCount, List.countP_cons]
      by_cases hf : isFinalizationOf t (stepOp agg st op).2 = true
      · rw [hf]
        simp only [if_true]

        have hafter : (((stepOp agg st op).1).propEventSet (eventKey t)).isSome := by
          cases op with
          | mark h t2 s n =>
              exfalso
              simp [stepOp, isFinalizationOf] at hf
          | fin t2 ac n =>
              simp only [stepOp] at hf ⊢
              cases hr : (finalizePropagation agg st t2 ac n).2 with
              | error e => rw [hr] at hf; simp [isFinalizationOf] at hf
              | ok o =>
                  cases o with
                  | none => rw [hr] at hf; simp [isFinalizationOf] at hf
                  | some tp =>
                      rw [hr] at hf
                      simp only [isFinalizationOf, beq_iff_eq] at hf
                      obtain ⟨htx, _, hset⟩ := finalize_success_absent agg st t2 ac n tp hr
                      rw [htx] at hf
                      subst hf
                      rw [hset]
                      rfl
        have h0 : finalizedCount t (runOps agg (stepOp agg st op).1 rest).2 = 0 :=
          runOps_count_zero agg t rest _ hafter
        simp only [finalizedCount] at h0
        omega
      · rw [Bool.not_eq_true] at hf
        rw [hf]
        simp only [Bool.false_eq_true, if_false, Nat.add_zero]
        exact ih _

theorem markSeen_raises_of_finalized (agg : Aggregator) (st : AggState)
    (host txid : String) (seenAt now : Time)
    (hne : ¬agg.hostToCohort = []) (hch : (agg.cohortOf host).isSome)
    (hdup : st.hostSeen (txid, host) = none) (hnew : st.txids txid = none)
    (hfin : (st.propEventSet txid).isSome) :
    (markSeen agg st host txid seenAt now).2 = .error .runtimeError := by
  simp only [markSeen]
  (repeat' split) <;> simp_all

theorem finalize_raises_of_finalized (agg : Aggregator) (st : AggState)
    (txid : String) (ac : Bool) (now : Time)
    (hne : ¬agg.hostToCohort = []) (hfin : (st.propEventSet txid).isSome) :
    finalizePropagation agg st txid ac now = (st, .error .runtimeError) := by
  simp only [finalizePropagation]
  rw [if_neg hne, if_pos hfin]

/-- C1: if a txid is already in the finalized-record index set
`mpa:prop_event_set`, then `mark_seen` raises when its insert of the txid into
`mpa:txids` succeeds (the duplicate guard and preconditions having passed),
and `finalize_propagation` raises before doing any work (the state is
returned unchanged); and for any sequence of `mark_seen` / `finalize` calls,
no txid is ever finalized twice. -/
theorem claim_C1_no_double_finalization :
    (∀ (agg : Aggregator) (st : AggState) (host txid : String) (seenAt now : Time),
        ¬agg.hostToCohort = [] → (agg.cohortOf host).isSome →
        st.hostSeen (txid, host) = none → st.txids txid = none →
        (st.propEventSet txid).isSome →
        (markSeen agg st host txid seenAt now).2 = .error .runtimeError)
    ∧ (∀ (agg : Aggregator) (st : AggState) (txid : String) (ac : Bool) (now : Time),
        ¬agg.hostToCohort = [] → (st.propEventSet txid).isSome →
        finalizePropagation agg st txid ac now = (st, .error .runtimeError))
    ∧ (∀ (agg : Aggregator) (st : AggState) (ops : List AggOp) (txid : String),
        finalizedCount txid (runOps agg st ops).2 ≤ 1) := by
  refine ⟨?_, ?_, ?_⟩
  · intro agg st host txid seenAt now hne hch hdup hnew hfin
    exact markSeen_raises_of_finalized agg st host txid seenAt now hne hch hdup hnew hfin
  · intro agg st txid ac now hne hfin
    exact finalize_raises_of_finalized agg st txid ac now hne hfin
  · intro agg st ops txid
    exact runOps_finalized_at_most_once agg txid ops st

/-- Witness for C1 at concrete inputs. -/
theorem claim_C1_witness :
    (¬aggAB.hostToCohort = [] ∧ (aggAB.cohortOf "a").isSome ∧
      stFinalized.hostSeen ("t1", "a") = none ∧ stFinalized.txids "t1" = none ∧
      (stFinalized.propEventSet "t1").isSome)
    ∧ (markSeen aggAB stFinalized "a" "t1" 1 2).2 = .error .runtimeError
    ∧ finalizePropagation aggAB stFinalized "t1" false 3 = (stFinalized, .error .runtimeError)
    ∧ finalizedCount "t1" (runOps aggAB AggState.init
        [.mark "a" "t1" 1 1, .fin "t1" false 2]).2 ≤ 1 := by
  refine ⟨⟨by decide, by decide, rfl, rfl, rfl⟩, ?_, ?_, ?_⟩
  · exact claim_C1_no_double_finalization.1 aggAB stFinalized "a" "t1" 1 2
      (by decide) (by decide) rfl rfl rfl
  · exact claim_C1_no_double_finalization.2.1 aggAB stFinalized "t1" false 3
      (by decide) rfl
  · exact claim_C1_no_double_finalization.2.2 aggAB AggState.init
      [.mark "a" "t1" 1 1, .fin "t1" false 2] "t1"

/-- C3: a duplicate `mark_seen(host, txid, _)`, i.e. one for which the key
`mpa:<txid>:<host>` already holds a first-seen timestamp, returns `None` and
leaves the aggregator state entirely unchanged — in particular the counters
`mpa:total_txids` and `mpa:total_txids:<host>` are not incremented and the
stored first-seen timestamp is not overwritten. -/
theorem claim_C3_duplicate_mark_seen_noop (agg : Aggregator) (st : AggState)
    (host txid : String) (seenAt now v : Time)
    (hne : ¬agg.hostToCohort = []) (hch : (agg.cohortOf host).isSome)
    (hseen : st.hostSeen (txid, host) = some v) :
    markSeen agg st host txid seenAt now = (st, .ok none) := by
  simp only [markSeen]
  rw [if_neg hne]
  rw [if_neg (by simp [Option.isNone_iff_eq_none]; exact Option.isSome_iff_exists.mp hch |>.elim fun c hc => by simp [hc])]
  rw [if_pos (by rw [hseen]; rfl)]

/-- Witness for C3 at concrete inputs. -/
theorem claim_C3_witness :
    (¬aggAB.hostToCohort = [] ∧ (aggAB.cohortOf "a").isSome ∧
      stSeenA.hostSeen ("t1", "a") = some 5)
    ∧ markSeen aggAB stSeenA "a" "t1" 7 8 = (stSeenA, .ok none) := by
  refine ⟨⟨by decide, by decide, rfl⟩, ?_⟩
  exact claim_C3_duplicate_mark_seen_noop aggAB stSeenA "a" "t1" 7 8 5
    (by decide) (by decide) rfl

/-- C2 (code-bug evaluation): after `mark_seen` calls for both hosts, the
final call returns `CompleteAll`, triggering
`server_tasks.process_completed_propagations(txid)`; that function calls
`agg.process_completed_propagations(...)`, an attribute that
`MempoolAcceptAggregator` does not define, so the call raises AttributeError
instead of invoking `finalize_propagation(txid, assert_complete=True)` and
producing the record, contrary to the claim. -/
theorem claim_C2_completed_propagation_attribute_error :
    "process_completed_propagations" ∉ mempoolAcceptAggregatorMethods
    ∧ (processMempoolAccept aggAB ((markSeen aggAB AggState.init "a" "t1" 1 1).1)
        "b" "t1" 2 2).2
        = (.ok (some .completeAll), some (.error .attributeError)) := by
  constructor
  · decide
  · rfl

theorem markSeen_hostSeen_of_fresh (agg : Aggregator) (st : AggState)
    (h t : String) (s n : Time)
    (hne : ¬agg.hostToCohort = []) (hch : (agg.cohortOf h).isSome)
    (hdup : st.hostSeen (t, h) = none) :
    ((markSeen agg st h t s n).1).hostSeen
      = fun p => if p = (t, h) then some s else st.hostSeen p := by
  simp only [markSeen]
  (repeat' split) <;> simp_all

theorem markSeen_txids_of_fresh (agg : Aggregator) (st : AggState)
    (h t : String) (s n : Time)
    (hne : ¬agg.hostToCohort = []) (hch : (agg.cohortOf h).isSome)
    (hdup : st.hostSeen (t, h) = none) :
    ((markSeen agg st h t s n).1).txids
      = fun x => if x = t then some n else st.txids x := by
  simp only [markSeen]
  (repeat' split) <;> simp_all

theorem findMark_eq_none_of_not_mem (ms : List MarkCall) (k : String × String)
    (hk : k ∉ ms.map MarkCall.key) : findMark ms k = none := by
  unfold findMark
  rw [List.find?_eq_none.mpr]
  · rfl
  · intro m hm
    simp only [beq_iff_eq]
    intro hkey
    exact hk (hkey ▸ List.mem_map_of_mem MarkCall.key hm)

theorem runMarks_chars (agg : Aggregator) (n : Time) (hne : ¬agg.hostToCohort = []) :
    ∀ (ms : List MarkCall) (st : AggState),
      (∀ m ∈ ms, (agg.cohortOf m.host).isSome) →
      (∀ m ∈ ms, st.hostSeen m.key = none) →
      (ms.map MarkCall.key).Nodup →
      (∀ p, (runMarks agg n st ms).hostSeen p
          = (match findMark ms p with
             | some v => some v
             | none => st.hostSeen p))
      ∧ (∀ x, (runMarks agg n st ms).txids x
          = (if ms.any (fun m => m.txid == x) then some n else st.txids x))
      ∧ (runMarks agg n st ms).propEventSet = st.propEventSet := by
  intro ms
  induction ms with
  | nil =>
      intro st _ _ _
      refine ⟨fun p => ?_, fun x => ?_, rfl⟩
      · simp [findMark, runMarks]
      · simp [runMarks]
  | cons m rest ih =>
      intro st hch hdup hnd
      have hchm : (agg.cohortOf m.host).isSome := hch m (by simp)
      have hdupm : st.hostSeen (m.txid, m.host) = none := hdup m (by simp)
      have hhs : ((markSeen agg st m.host m.txid m.seenAt n).1).hostSeen
          = fun p => if p = (m.txid, m.host) then some m.seenAt else st.hostSeen p :=
        markSeen_hostSeen_of_fresh agg st m.host m.txid m.seenAt n hne hchm hdupm
      have htx : ((markSeen agg st m.host m.txid m.seenAt n).1).txids
          = fun x => if x = m.txid then some n else st.txids x :=
        markSeen_txids_of_fresh agg st m.host m.txid m.seenAt n hne hchm hdupm
      have hpe : ((markSeen agg st m.host m.txid m.seenAt n).1).propEventSet
          = st.propEventSet := markSeen_propEventSet agg st m.host m.txid m.seenAt n
      have hnd2 : (rest.map MarkCall.key).Nodup := (List.nodup_cons.mp hnd).2
      have hknotin : m.key ∉ rest.map MarkCall.key := (List.nodup_cons.mp hnd).1
      have ihh := ih ((markSeen agg st m.host m.txid m.seenAt n).1)
        (fun m2 hm2 => hch m2 (by simp [hm2]))
        (fun m2 hm2 => by
          rw [hhs]
          have hne2 : m2.key ≠ m.key := by
            intro hcontra
            exact hknotin (hcontra ▸ List.mem_map_of_mem MarkCall.key hm2)
          simp only [MarkCall.key] at hne2 ⊢
          rw [if_neg hne2]
          exact hdup m2 (by simp [hm2]))
        hnd2
      refine ⟨fun p => ?_, fun x => ?_, ?_⟩
      · rw [show runMarks agg n st (m :: rest)
            = runMarks agg n ((markSeen agg st m.host m.txid m.seenAt n).1) rest from rfl]
        rw [ihh.1 p]
        unfold findMark
        rw [List.find?_cons]
        by_cases hk : m.key == p
        · rw [hk]
          have hpk : p = m.key := (beq_iff_eq.mp hk).symm
          have hnone : findMark rest p = none :=
            findMark_eq_none_of_not_mem rest p (by rw [hpk]; exact hknotin)
          unfold findMark at hnone
          rw [hnone]
          dsimp only
          simp only [hhs, hpk]
          simp [MarkCall.key]
        · have hk2 : (m.key == p) = false := by simpa using hk
          rw [hk2]
          dsimp only
          cases hfm : (rest.find? (fun m2 => m2.key == p)).map MarkCall.seenAt with
          | some v => rfl
          | none =>
              have hne2 : p ≠ (m.txid, m.host) := by
                intro hcontra
                apply hk
                simp [MarkCall.key, hcontra]
              simp only [hhs]
              rw [if_neg hne2]
      · rw [show runMarks agg n st (m :: rest)
            = runMarks agg n ((markSeen agg st m.host m.txid m.seenAt n).1) rest from rfl]
        rw [ihh.2.1 x]
        rw [htx]
        simp only [List.any_cons]
        by_cases hrest : rest.any (fun m2 => m2.txid == x)
        · simp [hrest]
        · simp only [hrest, Bool.or_false]
          by_cases hx : m.txid == x
          · have hxx : x = m.txid := (beq_iff_eq.mp hx).symm
            simp [hx, hxx]
          · have hxx : ¬x = m.txid := fun hc => by simp [hc] at hx
            simp [hx, hxx, Bool.false_eq_true]
      · rw [show runMarks agg n st (m :: rest)
            = runMarks agg n ((markSeen agg st m.host m.txid m.seenAt n).1) rest from rfl]
        rw [ihh.2.2, hpe]

theorem findMark_perm (ms1 ms2 : List MarkCall) (hperm : ms1.Perm ms2)
    (hnd : (ms1.map MarkCall.key).Nodup) (k : String × String) :
    findMark ms1 k = findMark ms2 k := by
  unfold findMark
  cases h1 : ms1.find? (fun m => m.key == k) with
  | none =>
      cases h2 : ms2.find? (fun m => m.key == k) with
      | none => rfl
      | some b =>
          exfalso
          have hb : b ∈ ms2 := List.mem_of_find?_eq_some h2
          have hpb := List.find?_some h2
          have hb1 : b ∈ ms1 := hperm.symm.subset hb
          have := List.find?_eq_none.mp h1 b hb1
          exact this hpb
  | some a =>
      cases h2 : ms2.find? (fun m => m.key == k) with
      | none =>
          exfalso
          have ha : a ∈ ms1 := List.mem_of_find?_eq_some h1
          have hpa := List.find?_some h1
          have ha2 : a ∈ ms2 := hperm.subset ha
          have := List.find?_eq_none.mp h2 a ha2
          exact this hpa
      | some b =>
          have ha : a ∈ ms1 := List.mem_of_find?_eq_some h1
          have hpa0 := List.find?_some h1
          have hpa : a.key = k := beq_iff_eq.mp hpa0
          have hb : b ∈ ms1 := hperm.symm.subset (List.mem_of_find?_eq_some h2)
          have hpb0 := List.find?_some h2
          have hpb : b.key = k := beq_iff_eq.mp hpb0
          have hab : a = b :=
            List.inj_on_of_nodup_map hnd ha hb (by rw [hpa, hpb])
          rw [hab]

theorem any_perm_eq (ms1 ms2 : List MarkCall) (hperm : ms1.Perm ms2)
    (p : MarkCall → Bool) : ms1.any p = ms2.any p := by
  cases h1 : ms1.any p with
  | true =>
      obtain ⟨a, ha, hpa⟩ := List.any_eq_true.mp h1
      exact (List.any_eq_true.mpr ⟨a, hperm.subset ha, hpa⟩).symm
  | false =>
      cases h2 : ms2.any p with
      | false => rfl
      | true =>
          obtain ⟨a, ha, hpa⟩ := List.any_eq_true.mp h2
          have := List.any_eq_true.mpr ⟨a, hperm.symm.subset ha, hpa⟩
          rw [h1] at this
          exact this

theorem hostTimestamps_congr (agg : Aggregator) (st1 st2 : AggState) (t : String)
    (hhs : ∀ h, st1.hostSeen (t, h) = st2.hostSeen (t, h)) :
    hostTimestamps agg st1 t = hostTimestamps agg st2 t := by
  unfold hostTimestamps
  induction agg.hostNames with
  | nil => rfl
  | cons h rest ih =>
      simp only [List.filterMap_cons]
      rw [hhs h, ih]

theorem finalize_output_congr (agg : Aggregator) (st1 st2 : AggState) (t : String)
    (ac : Bool) (nf : Time)
    (hpe : st1.propEventSet = st2.propEventSet)
    (htx : st1.txids t = st2.txids t)
    (hhs : ∀ h, st1.hostSeen (t, h) = st2.hostSeen (t, h)) :
    (finalizePropagation agg st1 t ac nf).2 = (finalizePropagation agg st2 t ac nf).2 := by
  have hts : hostTimestamps agg st1 t = hostTimestamps agg st2 t :=
    hostTimestamps_congr agg st1 st2 t hhs
  simp only [finalizePropagation, AggState.setPropEvent_propEventSet,
    AggState.zaddPropEventSet_txids, AggState.setPropEvent_txids, hpe, htx, hts]
  (repeat' split) <;> rfl

/-- C4: the PropagationAggregator is commutative in `mark_seen` order — for
any finite collection of `mark_seen` calls with pairwise distinct
(host, txid) pairs over known hosts, any two execution orders (permutations)
followed by `finalize_propagation(txid, assert_complete=false)` produce equal
results, the whole `TxPropagation` record included: `host_to_timestamp`,
`cohorts_complete`, `all_complete` and therefore `earliest_saw`,
`latest_saw` and `spread` all coincide (with the same wall clock `n` at the
insertions and `nf` at finalization). -/
theorem claim_C4_mark_seen_commutative (agg : Aggregator) (n nf : Time)
    (ms1 ms2 : List MarkCall) (t : String)
    (hperm : ms1.Perm ms2)
    (hnd : (ms1.map MarkCall.key).Nodup)
    (hhosts : ∀ m ∈ ms1, (agg.cohortOf m.host).isSome)
    (hne : ¬agg.hostToCohort = []) :
    (finalizePropagation agg (runMarks agg n AggState.init ms1) t false nf).2
      = (finalizePropagation agg (runMarks agg n AggState.init ms2) t false nf).2 := by
  have hnd2 : (ms2.map MarkCall.key).Nodup := ((hperm.map MarkCall.key).nodup_iff).mp hnd
  have hhosts2 : ∀ m ∈ ms2, (agg.cohortOf m.host).isSome :=
    fun m hm => hhosts m (hperm.symm.subset hm)
  have hc1 := runMarks_chars agg n hne ms1 AggState.init hhosts (fun m _ => rfl) hnd
  have hc2 := runMarks_chars agg n hne ms2 AggState.init hhosts2 (fun m _ => rfl) hnd2
  apply finalize_output_congr
  · rw [hc1.2.2, hc2.2.2]
  · rw [hc1.2.1 t, hc2.2.1 t, any_perm_eq ms1 ms2 hperm]
  · intro h
    rw [hc1.1 (t, h), hc2.1 (t, h), findMark_perm ms1 ms2 hperm hnd (t, h)]

/-- Witness for C4 at concrete inputs. -/
theorem claim_C4_witness :
    (msC4a.Perm msC4b ∧ (msC4a.map MarkCall.key).Nodup ∧
      (∀ m ∈ msC4a, (aggAB.cohortOf m.host).isSome) ∧ ¬aggAB.hostToCohort = [])
    ∧ (finalizePropagation aggAB (runMarks aggAB 3 AggState.init msC4a) "t1" false 9).2
      = (finalizePropagation aggAB (runMarks aggAB 3 AggState.init msC4b) "t1" false 9).2 := by
  refine ⟨⟨by decide, by decide, by decide, by decide⟩, ?_⟩
  exact claim_C4_mark_seen_commutative aggAB 3 9 msC4a msC4b "t1"
    (by decide) (by decide) (by decide) (by decide)

theorem reorg_disc_phase (h : Nat) (odh : Nat → String) (dts : Nat → Time) :
    ∀ (is : List Nat) (s : ReorgState),
    runReorg s (is.map (fun i => mkDisconnectLine (h + i) (odh i) (dts i)))
      = (⟨(is.reverse.map (fun i => (⟨dts i, h + i, odh i⟩ : BlockEvent)))
            ++ s.disconnects, s.replacements⟩,
         List.replicate is.length (.ok none)) := by
  intro is
  induction is with
  | nil =>
      intro s
      simp [runReorg]
  | cons a rest ih =>
      intro s
      simp only [List.map_cons, runReorg]
      have hstep : reorgProcessLine s (mkDisconnectLine (h + a) (odh a) (dts a))
          = (⟨(⟨dts a, h + a, odh a⟩ : BlockEvent) :: s.disconnects,
              s.replacements⟩, .ok none) := rfl
      rw [hstep]
      rw [ih ⟨(⟨dts a, h + a, odh a⟩ : BlockEvent) :: s.disconnects, s.replacements⟩]
      simp [List.replicate_succ]

theorem getLast?_map_range {α : Type} (f : Nat → α) (n : Nat) :
    ((List.range (n + 1)).map f).getLast? = some (f n) := by
  rw [List.range_succ, List.map_append]
  simp

theorem head?_map_range {α : Type} (f : Nat → α) (n : Nat) :
    ((List.range (n + 1)).map f).head? = some (f 0) := by
  rw [List.range_succ_eq_map]
  simp

theorem reorg_conn_phase (h : Nat) (odh ndh : Nat → String) (dts cts : Nat → Time)
    (k' : Nat) :
    ∀ (m j : Nat), 1 ≤ m → j + m = k' + 1 →
    runReorg ⟨(List.range (k' + 1)).map (fun i => (⟨dts i, h + i, odh i⟩ : BlockEvent)),
              (List.range j).map (fun i => (⟨cts i, h + i, ndh i⟩ : BlockEvent))⟩
      ((List.range' j m).map (fun i => mkConnectLine (h + i) (ndh i) (cts i)))
    = (ReorgState.initial,
       List.replicate (m - 1) (.ok none) ++
         [.ok (some { finished_timestamp := cts k', min_height := h,
                      max_height := h + k',
                      old_blockhashes := (List.range (k' + 1)).map odh,
                      new_blockhashes := (List.range (k' + 1)).map ndh })]) := by
  intro m
  induction m with
  | zero => intro j h1 _; omega
  | succ m ih =>
      intro j hm hjk
      rw [List.range'_succ]
      simp only [List.map_cons, runReorg]
      have hgot : reorgGot (mkConnectLine (h + j) (ndh j) (cts j))
          = some (.connected ⟨cts j, h + j, ndh j⟩) := rfl
      have hlast : ((List.range (k' + 1)).map
            (fun i => (⟨dts i, h + i, odh i⟩ : BlockEvent))).getLast?
          = some ⟨dts k', h + k', odh k'⟩ :=
        getLast?_map_range (fun i => (⟨dts i, h + i, odh i⟩ : BlockEvent)) k'
      cases m with
      | zero =>
          have hj : j = k' := by omega
          subst hj
          have hstep : reorgProcessLine
              ⟨(List.range (j + 1)).map (fun i => (⟨dts i, h + i, odh i⟩ : BlockEvent)),
               (List.range j).map (fun i => (⟨cts i, h + i, ndh i⟩ : BlockEvent))⟩
              (mkConnectLine (h + j) (ndh j) (cts j))
              = (ReorgState.initial, .ok (some
                  { finished_timestamp := cts j, min_height := h,
                    max_height := h + j,
                    old_blockhashes := (List.range (j + 1)).map odh,
                    new_blockhashes := (List.range (j + 1)).map ndh })) := by
            simp only [reorgProcessLine, hgot, hlast]
            rw [if_pos (le_refl (h + j))]
            rw [if_neg (lt_irrefl (h + j))]
            have hrep : ((List.range j).map
                  (fun i => (⟨cts i, h + i, ndh i⟩ : BlockEvent))) ++ [⟨cts j, h + j, ndh j⟩]
                = (List.range (j + 1)).map
                  (fun i => (⟨cts i, h + i, ndh i⟩ : BlockEvent)) := by
              rw [List.range_succ, List.map_append]
              rfl
            simp only [reorgEmit]
            rw [hrep]
            rw [getLast?_map_range (fun i => (⟨cts i, h + i, ndh i⟩ : BlockEvent)) j]
            rw [head?_map_range (fun i => (⟨dts i, h + i, odh i⟩ : BlockEvent)) j]
            simp only [List.map_map]
            have hold : List.map (BlockEvent.blockhash ∘
                  fun i => (⟨dts i, h + i, odh i⟩ : BlockEvent)) (List.range (j + 1))
                = List.map odh (List.range (j + 1)) := by
              apply List.map_congr_left
              intro i _
              rfl
            have hnew : List.map (BlockEvent.blockhash ∘
                  fun i => (⟨cts i, h + i, ndh i⟩ : BlockEvent)) (List.range (j + 1))
                = List.map ndh (List.range (j + 1)) := by
              apply List.map_congr_left
              intro i _
              rfl
            rw [hold, hnew]
            simp
          rw [hstep]
          simp [runReorg]
      | succ m2 =>
          have hjlt : j < k' := by omega
          have hstep : reorgProcessLine
              ⟨(List.range (k' + 1)).map (fun i => (⟨dts i, h + i, odh i⟩ : BlockEvent)),
               (List.range j).map (fun i => (⟨cts i, h + i, ndh i⟩ : BlockEvent))⟩
              (mkConnectLine (h + j) (ndh j) (cts j))
              = (⟨(List.range (k' + 1)).map (fun i => (⟨dts i, h + i, odh i⟩ : BlockEvent)),
                  (List.range (j + 1)).map (fun i => (⟨cts i, h + i, ndh i⟩ : BlockEvent))⟩,
                 .ok none) := by
            simp only [reorgProcessLine, hgot, hlast]
            rw [if_pos (by omega : h + j ≤ h + k')]
            rw [if_pos (by omega : h + j < h + k')]
            have hrep : ((List.range j).map
                  (fun i => (⟨cts i, h + i, ndh i⟩ : BlockEvent))) ++ [⟨cts j, h + j, ndh j⟩]
                = (List.range (j + 1)).map
                  (fun i => (⟨cts i, h + i, ndh i⟩ : BlockEvent)) := by
              rw [List.range_succ, List.map_append]
              rfl
            rw [hrep]
          rw [hstep]
          rw [ih (j + 1) (by omega) (by omega)]
          simp [List.replicate_succ]

theorem runReorg_append (xs ys : List BtcLine) : ∀ s : ReorgState,
    runReorg s (xs ++ ys)
      = ((runReorg (runReorg s xs).1 ys).1,
         (runReorg s xs).2 ++ (runReorg (runReorg s xs).1 ys).2) := by
  induction xs with
  | nil => intro s; simp [runReorg]
  | cons l rest ih =>
      intro s
      simp only [List.cons_append, runReorg]
      rw [show (rest.append ys) = rest ++ ys from rfl, ih ((reorgProcessLine s l).1)]

/-- C5: for a balanced reorg — `k` BlockDisconnected lines at heights
`h+k-1` down to `h` followed by `k` BlockConnected lines at heights `h` up to
`h+k-1` — the `ReorgListener` emits exactly one `Reorg` event, on the last
connect, with `min_height = h`, `max_height = h+k-1`, the old and new
blockhashes ordered low-to-high by height, and `finished_timestamp` the last
replacement line's timestamp; afterwards the listener is back in its initial
state.  A BlockConnected with no outstanding disconnects returns null. -/
theorem claim_C5_reorg_balanced (h k : Nat) (hk : 0 < k)
    (odh ndh : Nat → String) (dts cts : Nat → Time) :
    (runReorg ReorgState.initial (reorgScenarioLines h k odh ndh dts cts)
      = (ReorgState.initial,
         List.replicate (2 * k - 1) (.ok none) ++
           [.ok (some { finished_timestamp := cts (k - 1), min_height := h,
                        max_height := h + (k - 1),
                        old_blockhashes := (List.range k).map odh,
                        new_blockhashes := (List.range k).map ndh })]))
    ∧ (∀ (s : ReorgState) (l : BtcLine), s.disconnects = [] →
        l.hasBlockConnected = true → l.hasBlockDisconnected = false →
        reorgProcessLine s l = (s, .ok none)) := by
  constructor
  · obtain ⟨k', rfl⟩ : ∃ k', k = k' + 1 := ⟨k - 1, by omega⟩
    unfold reorgScenarioLines
    rw [runReorg_append]
    rw [reorg_disc_phase h odh dts ((List.range (k' + 1)).reverse) ReorgState.initial]
    simp only [ReorgState.initial, List.reverse_reverse, List.append_nil,
      List.length_reverse, List.length_range]
    have hconn := reorg_conn_phase h odh ndh dts cts k' (k' + 1) 0
      (by omega) (by omega)
    simp only [List.range_zero, List.map_nil] at hconn
    rw [show (List.range' 0 (k' + 1)) = List.range (k' + 1) from
      (List.range_eq_range' (k' + 1)).symm] at hconn
    rw [hconn]
    have hlen : (k' + 1) + (k' + 1 - 1) = 2 * (k' + 1) - 1 := by omega
    rw [← List.append_assoc, ← List.replicate_add, hlen]
    rfl
  · intro s l hd hc hnd2
    cases he : l.hasEnqueuing with
    | true =>
        simp [reorgProcessLine, reorgGot, blockConnectedListener,
          blockDisconnectedListener, hc, hnd2, he]
    | false =>
        simp [reorgProcessLine, reorgGot, blockConnectedListener,
          blockDisconnectedListener, hc, hnd2, he, hd]

/-- Witness for C5 at concrete inputs (depth 2 reorg at heights 1 and 2). -/
theorem claim_C5_witness :
    0 < 2
    ∧ (runReorg ReorgState.initial
        (reorgScenarioLines 1 2 (fun i => "old" ++ toString i)
          (fun i => "new" ++ toString i) (fun _ => (0 : Time)) (fun _ => (21 : Time)))
      = (ReorgState.initial,
         List.replicate 3 (.ok none) ++
           [.ok (some { finished_timestamp := 21, min_height := 1,
                        max_height := 2,
                        old_blockhashes := ["old0", "old1"],
                        new_blockhashes := ["new0", "new1"] })])) := by
  constructor
  · decide
  · have := (claim_C5_reorg_balanced 1 2 (by decide)
      (fun i => "old" ++ toString i) (fun i => "new" ++ toString i)
      (fun _ => (0 : Time)) (fun _ => (21 : Time))).1
    rw [this]
    rfl

/-- C10: a BlockConnected line at a height strictly above the maximum
outstanding disconnect height, while no replacements have been collected,
makes `ReorgListener.process_line` raise (indexing `replacements[-1]` on an
empty list) instead of returning an event or null; the disconnects state is
left un-reset. -/
theorem claim_C10_connect_above_max_raises (s : ReorgState) (l : BtcLine)
    (d : BlockEvent)
    (hd : s.disconnects.getLast? = some d)
    (hr : s.replacements = [])
    (hc : l.hasBlockConnected = true) (hnd2 : l.hasBlockDisconnected = false)
    (hne : l.hasEnqueuing = false)
    (hh : d.height < l.height) :
    reorgProcessLine s l = (s, .error ()) := by
  have hgot : reorgGot l = some (.connected ⟨l.timestamp, l.height, l.blockhash⟩) := by
    simp [reorgGot, blockConnectedListener, blockDisconnectedListener, hc, hnd2, hne]
  simp only [reorgProcessLine, hgot, hd]
  dsimp only
  rw [if_neg (by omega : ¬ l.height ≤ d.height)]
  simp [reorgEmit, hr]

/-- Witness for C10 at concrete inputs. -/
theorem claim_C10_witness :
    ((⟨[⟨1, 5, "aa"⟩], []⟩ : ReorgState).disconnects.getLast?
        = some ⟨1, 5, "aa"⟩
      ∧ (⟨[⟨1, 5, "aa"⟩], []⟩ : ReorgState).replacements = []
      ∧ (mkConnectLine 7 "bb" 2).hasBlockConnected = true
      ∧ (5 : Nat) < (mkConnectLine 7 "bb" 2).height)
    ∧ reorgProcessLine ⟨[⟨1, 5, "aa"⟩], []⟩ (mkConnectLine 7 "bb" 2)
        = (⟨[⟨1, 5, "aa"⟩], []⟩, .error ()) := by
  refine ⟨⟨rfl, rfl, rfl, by decide⟩, ?_⟩
  exact claim_C10_connect_above_max_raises ⟨[⟨1, 5, "aa"⟩], []⟩
    (mkConnectLine 7 "bb" 2) ⟨1, 5, "aa"⟩ rfl rfl rfl rfl rfl (by decide)

/-- C7 counterexample: in the C7 scenario the details event flushed for the
new block `bb` still carries `sanity_checks_time_ms = 1`, which was
accumulated before the intervening UpdateTip — the partial accumulator is
not discarded, contradicting the claim. -/
theorem claim_C7_counterexample :
    c7Flushed.map (fun dd => (dd.blockhash, dd.height, dd.sanity_checks_time_ms))
      = some (some "bb", some 101, some 1) := by
  rfl

/-- C7 amended: an `UpdateTip:` line never resets the partially filled
`ConnectBlockDetails` accumulator; `self.next_details` is reset only when
the accumulator is flushed by a terminal `- Connect block:` line. -/
theorem claim_C7_amended (s : ConnectBlockState) (ts : Time) (f : UpdateTipFields) :
    ((connectBlockProcessLine s (.updateTip ts f)).1).next_details = s.next_details := by
  cases hf : f.height <;> simp [connectBlockProcessLine, hf]

theorem routerGo_chars (env : RouterEnv) (line lh : String) :
    ∀ (ls : List RouterListener) (acc : RouterResult),
      chainWellformed ls line → peersResolvable env ls line →
      (routerGo env line lh ls acc).sent.map Prod.fst
          = acc.sent.map Prod.fst
            ++ (isolationEvents ls line).filter (fun e => !e.isMempoolAccept && env.valid e)
      ∧ (routerGo env line lh ls acc).mempool
          = acc.mempool ++ (isolationEvents ls line).filter (fun e => e.isMempoolAccept)
      ∧ (routerGo env line lh ls acc).aborted = acc.aborted := by
  intro ls
  induction ls with
  | nil =>
      intro acc _ _
      simp [routerGo, isolationEvents]
  | cons l rest ih =>
      intro acc hwf hres
      have hwl := hwf l (List.mem_cons_self l rest)
      have hrl := hres l (List.mem_cons_self l rest)
      have hwrest : chainWellformed rest line :=
        fun l2 h2 => hwf l2 (List.mem_cons_of_mem l h2)
      have hrrest : peersResolvable env rest line :=
        fun l2 h2 => hres l2 (List.mem_cons_of_mem l h2)
      cases ho : l.out line with
      | nothing =>
          simp only [routerGo, ho, isolationEvents, List.filterMap_cons]
          exact ih acc hwrest hrrest
      | raised =>
          simp only [routerGo, ho, isolationEvents, List.filterMap_cons]
          exact ih { acc with errors := acc.errors + 1 } hwrest hrrest
      | intVal n =>
          have hp : l.isPong = true := by
            have := hwl
            rw [ho] at this
            exact this
          simp only [routerGo, ho, hp, if_true, isolationEvents, List.filterMap_cons]
          exact ih { acc with pongSyncs := acc.pongSyncs ++ [n] } hwrest hrrest
      | event e =>
          have hp : l.isPong = false := by
            have := hwl
            rw [ho] at this
            exact this
          have hre : (e.hasPeerId ∧ ¬ e.isHighVolume = true) →
              ((env.peerIdMap e.peerNum).isSome ∨ (env.resync e.peerNum).isSome) := by
            have := hrl
            rw [ho] at this
            exact this
          simp only [routerGo, ho, hp, isolationEvents, List.filterMap_cons]
          cases hm : e.isMempoolAccept with
          | true =>
              simp only [if_true]
              have := ih { acc with mempool := acc.mempool ++ [e], cursor := some lh }
                hwrest hrrest
              refine ⟨?_, ?_, ?_⟩
              · rw [this.1]
                simp [isolationEvents, hm]
              · rw [this.2.1]
                simp [isolationEvents, hm]
              · rw [this.2.2]
          | false =>
              simp only [Bool.false_eq_true, if_false]
              have hsome : ∃ pid : Option Nat,
                  (if e.hasPeerId ∧ ¬ e.isHighVolume = true then
                    match env.peerIdMap e.peerNum with
                    | some pid => some (some pid)
                    | none =>
                      match env.resync e.peerNum with
                      | some pid => some (some pid)
                      | none => none
                  else some none) = some pid := by
                by_cases hc : e.hasPeerId ∧ ¬ e.isHighVolume = true
                · rcases hre hc with hmap | hsync
                  · cases hmap2 : env.peerIdMap e.peerNum with
                    | none => rw [hmap2] at hmap; simp at hmap
                    | some pid => exact ⟨some pid, by rw [if_pos hc]⟩
                  · cases hmap2 : env.peerIdMap e.peerNum with
                    | some pid => exact ⟨some pid, by rw [if_pos hc]⟩
                    | none =>
                        cases hsync2 : env.resync e.peerNum with
                        | none => rw [hsync2] at hsync; simp at hsync
                        | some pid => exact ⟨some pid, by rw [if_pos hc]⟩
                · exact ⟨none, by rw [if_neg hc]⟩
              rcases hsome with ⟨pid, hpid⟩
              rw [hpid]
              cases hv : env.valid e with
              | true =>
                  simp only [if_true]
                  have := ih { acc with sent := acc.sent ++ [(e, pid)], cursor := some lh }
                    hwrest hrrest
                  refine ⟨?_, ?_, ?_⟩
                  · rw [this.1]
                    simp [isolationEvents, hm, hv]
                  · rw [this.2.1]
                    simp [isolationEvents, hm]
                  · rw [this.2.2]
              | false =>
                  simp only [Bool.false_eq_true, if_false]
                  have := ih acc hwrest hrrest
                  refine ⟨?_, ?_, ?_⟩
                  · rw [this.1]
                    simp [isolationEvents, hm, hv]
                  · rw [this.2.1]
                    simp [isolationEvents, hm]
                  · rw [this.2.2]

/-- C6 counterexample: both listeners produce an event in isolation, but the
router sends nothing — the first listener's unresolvable peer reference makes
`process_line` return early, so its event is discarded and the second
listener never sees the line.  The router's output is not the union of the
per-listener events. -/
theorem claim_C6_counterexample :
    isolationEvents lsC6 "line" = [e1C6, e2C6]
    ∧ (routerRun envC6 "line" none lsC6).sent = []
    ∧ (routerRun envC6 "line" none lsC6).mempool = []
    ∧ (routerRun envC6 "line" none lsC6).pongSyncs = []
    ∧ ¬ (routerRun envC6 "line" none lsC6).sent.map Prod.fst
          = isolationEvents lsC6 "line" := by
  refine ⟨rfl, rfl, rfl, rfl, ?_⟩
  intro hcontra
  simp [routerRun, routerGo, lsC6, envC6, e1C6, isolationEvents] at hcontra

/-- C6 amended: the line is presented to every listener in chain order and a
listener returning a value does not consume it, with these provisos visible
in the code: MempoolAccept events are diverted to the mempool queue and pong
integers to a peer re-sync rather than being sent to the hub, events failing
model validation are dropped, and — the exception the counterexample
exhibits — an event whose peer reference cannot be resolved aborts the chain
for that line.  Provided every peer reference resolves, the events sent to
the hub are exactly, in chain order, the valid non-mempool events each
listener produces in isolation, and the mempool dispatches are exactly the
MempoolAccept events. -/
theorem claim_C6_amended (env : RouterEnv) (ls : List RouterListener)
    (line : String) (c0 : Option String)
    (hwf : chainWellformed ls line) (hres : peersResolvable env ls line) :
    (routerRun env line c0 ls).sent.map Prod.fst
        = (isolationEvents ls line).filter (fun e => !e.isMempoolAccept && env.valid e)
    ∧ (routerRun env line c0 ls).mempool
        = (isolationEvents ls line).filter (fun e => e.isMempoolAccept)
    ∧ (routerRun env line c0 ls).aborted = false := by
  have := routerGo_chars env line (env.hashFn line) ls
    { sent := [], mempool := [], pongSyncs := [], errors := 0,
      cursor := c0, aborted := false } hwf hres
  exact ⟨by simpa [routerRun] using this.1, by simpa [routerRun] using this.2.1,
    by simpa [routerRun] using this.2.2⟩

/-- Witness for the amended C6 at concrete inputs: with the peer resolvable,
both events are sent, in chain order. -/
theorem claim_C6_witness :
    (chainWellformed lsC6 "line" ∧ peersResolvable envC6w lsC6 "line")
    ∧ (routerRun envC6w "line" none lsC6).sent.map Prod.fst = [e1C6, e2C6]
    ∧ (routerRun envC6w "line" none lsC6).mempool = []
    ∧ (routerRun envC6w "line" none lsC6).aborted = false := by
  have hwf : chainWellformed lsC6 "line" := by
    intro l hl
    simp only [lsC6, List.mem_cons, List.not_mem_nil, or_false] at hl
    rcases hl with h | h <;> subst h <;> rfl
  have hres : peersResolvable envC6w lsC6 "line" := by
    intro l hl
    simp only [lsC6, List.mem_cons, List.not_mem_nil, or_false] at hl
    rcases hl with h | h <;> subst h <;> intro _ <;> simp [envC6w]
  have := claim_C6_amended envC6w lsC6 "line" none hwf hres
  refine ⟨⟨hwf, hres⟩, ?_, ?_, this.2.2⟩
  · rw [this.1]
    rfl
  · rw [this.2.1]
    rfl

theorem routerGo_invalid_frozen (env : RouterEnv) (line lh : String) :
    ∀ (ls : List RouterListener) (acc : RouterResult),
      (∀ l ∈ ls, match l.out line with
        | .event e => e.isMempoolAccept = false ∧ env.valid e = false
        | _ => True) →
      (routerGo env line lh ls acc).sent = acc.sent
      ∧ (routerGo env line lh ls acc).cursor = acc.cursor := by
  intro ls
  induction ls with
  | nil => intro acc _; exact ⟨rfl, rfl⟩
  | cons l rest ih =>
      intro acc hw
      have hwl := hw l (List.mem_cons_self l rest)
      have hwrest : ∀ l2 ∈ rest, match l2.out line with
          | .event e => e.isMempoolAccept = false ∧ env.valid e = false
          | _ => True :=
        fun l2 h2 => hw l2 (List.mem_cons_of_mem l h2)
      cases ho : l.out line with
      | nothing =>
          simp only [routerGo, ho]
          exact ih acc hwrest
      | raised =>
          simp only [routerGo, ho]
          exact ih { acc with errors := acc.errors + 1 } hwrest
      | intVal n =>
          simp only [routerGo, ho]
          cases hp : l.isPong with
          | true =>
              simp only [if_true]
              exact ih { acc with pongSyncs := acc.pongSyncs ++ [n] } hwrest
          | false =>
              simp only [Bool.false_eq_true, if_false]
              constructor <;> trivial
      | event e =>
          rw [ho] at hwl
          simp only [routerGo, ho, hwl.1, Bool.false_eq_true, if_false]
          cases hp : l.isPong with
          | true =>
              simp only [if_true]
              constructor <;> trivial
          | false =>
              simp only [Bool.false_eq_true, if_false]
              cases hres : (if e.hasPeerId ∧ ¬ e.isHighVolume = true then
                  match env.peerIdMap e.peerNum with
                  | some pid => some (some pid)
                  | none =>
                    match env.resync e.peerNum with
                    | some pid => some (some pid)
                    | none => none
                else some none) with
              | none => exact ⟨rfl, rfl⟩
              | some pid =>
                  simp only [hwl.2, Bool.false_eq_true, if_false]
                  exact ih acc hwrest

/-- C9 counterexample: the only event extracted from the line fails model
validation; it is dropped, but — contrary to the claim — the stored cursor is
NOT advanced to the line's fingerprint: it still holds its previous value. -/
theorem claim_C9_counterexample :
    envC9.valid e2C6 = false
    ∧ (routerRun envC9 "line" (some "old") lsC9).sent = []
    ∧ (routerRun envC9 "line" (some "old") lsC9).cursor = some "old"
    ∧ ¬ (routerRun envC9 "line" (some "old") lsC9).cursor
          = some (envC9.hashFn "line") := by
  refine ⟨rfl, rfl, rfl, ?_⟩
  intro hcontra
  simp [routerRun, routerGo, lsC9, envC9, e2C6] at hcontra

/-- C9 amended: when every event extracted from a line fails model
validation (and none is a MempoolAccept), the events are dropped and logged
and `process_line` sends nothing — and the log cursor is NOT advanced for
that line: the stored cursor keeps whatever value it had, because the
`logfile_pos.mark(linehash)` call sits after the successful `send_event`,
which the validation-failure `continue` skips. -/
theorem claim_C9_amended (env : RouterEnv) (ls : List RouterListener)
    (line : String) (c0 : Option String)
    (hw : ∀ l ∈ ls, match l.out line with
      | .event e => e.isMempoolAccept = false ∧ env.valid e = false
      | _ => True) :
    (routerRun env line c0 ls).sent = [] ∧ (routerRun env line c0 ls).cursor = c0 := by
  have := routerGo_invalid_frozen env line (env.hashFn line) ls
    { sent := [], mempool := [], pongSyncs := [], errors := 0,
      cursor := c0, aborted := false } hw
  exact ⟨this.1, this.2⟩

/-- Witness for the amended C9 at concrete inputs. -/
theorem claim_C9_witness :
    (∀ l ∈ lsC9, match l.out "line" with
      | .event e => e.isMempoolAccept = false ∧ envC9.valid e = false
      | _ => True)
    ∧ (routerRun envC9 "line" (some "old") lsC9).sent = []
    ∧ (routerRun envC9 "line" (some "old") lsC9).cursor = some "old" := by
  have hw : ∀ l ∈ lsC9, match l.out "line" with
      | .event e => e.isMempoolAccept = false ∧ envC9.valid e = false
      | _ => True := by
    intro l hl
    simp only [lsC9, List.mem_cons, List.not_mem_nil, or_false] at hl
    subst hl
    exact ⟨rfl, rfl⟩
  have := claim_C9_amended envC9 lsC9 "line" (some "old") hw
  exact ⟨hw, this.1, this.2⟩

theorem scanForCursor_eq_findIdx (hashFn : String → String) (cursor : String) :
    ∀ lines : List String,
      scanForCursor hashFn cursor lines
        = (lines.findIdx? (fun l => hashFn l == cursor)).map (· + 1) := by
  intro lines
  induction lines with
  | nil => rfl
  | cons l rest ih =>
      have hcons : (l :: rest).findIdx? (fun x => hashFn x == cursor)
          = if (hashFn l == cursor) then some 0
            else ((rest.findIdx? (fun x => hashFn x == cursor)).map (· + 1)) := by
        rw [List.findIdx?_cons]
        by_cases h : (hashFn l == cursor) = true <;> simp [h]
      rw [hcons]
      simp only [scanForCursor]
      by_cases h : hashFn l = cursor
      · simp [h]
      · have hb : (hashFn l == cursor) = false := by simp [h]
        rw [if_neg h, hb]
        simp only [Bool.false_eq_true, if_false]
        rw [ih]

/-- C8 counterexample: with the cursor the non-null empty string — which no
line hashes to — `read_logfile_forever` yields from the first line as the
claim says, but logs NO warning (`if seek_to_cursor:` treats the empty
string like a null cursor and skips the scan), contradicting the claim that
a warning is logged whenever the cursor is non-null and unmatched. -/
theorem claim_C8_counterexample :
    ((fun _ => "HH") : String → String) "a" ≠ ""
    ∧ followYield (fun _ => "HH") ["a"] (some "") = (["a"], false) := by
  refine ⟨by decide, rfl⟩

/-- C8 amended: for a non-null, NON-EMPTY cursor, if some line of the current
file contents hashes to it then the yielded sequence begins immediately after
the first such line (index `i` below is the first matching index), with no
warning; if no line matches, the warning is logged and the sequence begins at
the first line.  (An empty cursor string is treated like a null cursor.) -/
theorem claim_C8_cursor_seek (hashFn : String → String) (lines : List String)
    (c : String) (hc : c ≠ "") :
    (∀ i : Nat, lines.findIdx? (fun l => hashFn l == c) = some i →
        followYield hashFn lines (some c) = (lines.drop (i + 1), false))
    ∧ (lines.findIdx? (fun l => hashFn l == c) = none →
        followYield hashFn lines (some c) = (lines, true)) := by
  constructor
  · intro i hi
    unfold followYield followSetup
    dsimp only
    rw [if_neg hc, scanForCursor_eq_findIdx, hi]
    simp
  · intro hnone
    unfold followYield followSetup
    dsimp only
    rw [if_neg hc, scanForCursor_eq_findIdx, hnone]
    simp

/-- Witness for the amended C8 at concrete inputs: the fingerprint function
appends `"!"`; the cursor `"b!"` matches the second line, so the yielded
sequence starts at line three; the cursor `"zz"` matches nothing, so all
lines are yielded with the warning flag set. -/
theorem claim_C8_witness :
    ("b!" ≠ "" ∧ "zz" ≠ ""
      ∧ (["a", "b", "c"].findIdx? (fun l => (l ++ "!") == "b!")) = some 1
      ∧ (["a", "b", "c"].findIdx? (fun l => (l ++ "!") == "zz")) = none)
    ∧ followYield (fun l => l ++ "!") ["a", "b", "c"] (some "b!") = (["c"], false)
    ∧ followYield (fun l => l ++ "!") ["a", "b", "c"] (some "zz")
        = (["a", "b", "c"], true) := by
  refine ⟨⟨by decide, by decide, by rfl, by rfl⟩, ?_, ?_⟩
  · exact (claim_C8_cursor_seek (fun l => l ++ "!") ["a", "b", "c"] "b!"
      (by decide)).1 1 (by rfl)
  · exact (claim_C8_cursor_seek (fun l => l ++ "!") ["a", "b", "c"] "zz"
      (by decide)).2 (by rfl)
